import Mathlib

/-!
Verification of the RTCM 3.x codec and transport layer of gnss-sdr
(file src/algorithms/PVT/libs/rtcm.h and its implementation).

The embedding models byte strings as lists of natural numbers (one entry
per byte, most-significant bit first inside a byte) and bit strings as
lists of booleans.  Stateful C++ members (body_length_, the lock-time
tables, the broadcast room) are modelled by explicit state passing.
Functions whose implementation file is not part of the sources under
review (the RTCM message builders and readers, the CRC engine, the
framing routine and the lock-time bookkeeping, all only declared in
rtcm.h) are modelled from the specification; their doc comments say so
explicitly.  Everything implemented inline in rtcm.h (the transport
envelope, the listener room, the queue reader) is translated from that
source directly.
-/

/-! ### Bits and bytes -/

/-- The eight bits of (the low byte of) a value, most-significant first,
as transmitted on the RTCM wire. -/
def bitsOfByte (b : Nat) : List Bool :=
  [b.testBit 7, b.testBit 6, b.testBit 5, b.testBit 4,
   b.testBit 3, b.testBit 2, b.testBit 1, b.testBit 0]

/-- A byte string as a bit string, most-significant bit of each byte first. -/
def bytesToBits : List Nat → List Bool
  | [] => []
  | b :: t => bitsOfByte b ++ bytesToBits t

/-- Value of a bit string read most-significant bit first. -/
def bitsVal (l : List Bool) : Nat :=
  l.foldl (fun a b => 2 * a + (if b then 1 else 0)) 0

/-- The w-bit unsigned encoding of a value, most-significant bit first. -/
def natBits (w v : Nat) : List Bool :=
  (List.range w).map (fun k => v.testBit (w - 1 - k))

/-- The w-bit two's-complement encoding of an integer. -/
def intBits (w : Nat) (x : Int) : List Bool :=
  natBits w (x.emod (2 ^ w)).toNat

/-- Packs a bit string into bytes, eight bits per byte, most-significant
bit first; a trailing group of fewer than eight bits is padded with zero
bits on the right, as the framing routine does before the length field is
computed. -/
def bitsToBytes : List Bool → List Nat
  | b7 :: b6 :: b5 :: b4 :: b3 :: b2 :: b1 :: b0 :: rest =>
      bitsVal [b7, b6, b5, b4, b3, b2, b1, b0] :: bitsToBytes rest
  | [] => []
  | l => [bitsVal l <<< (8 - l.length)]

/-- Unsigned field extraction: the w bits starting at bit offset off. -/
def fieldAt (bits : List Bool) (off w : Nat) : Nat :=
  bitsVal ((bits.drop off).take w)

/-- Signed (two's-complement) field extraction. -/
def sfieldAt (bits : List Bool) (off w : Nat) : Int :=
  let n := fieldAt bits off w
  if n < 2 ^ (w - 1) then (n : Int) else (n : Int) - 2 ^ w

/-! ### CRC-24Q engine

Modelled from the spec: the implementation of Rtcm::check_CRC lives in
rtcm.cc, which is not among the sources under review; rtcm.h only
declares it.  The spec fixes the algorithm completely: polynomial
0x1864CFB, initial value 0, no final XOR, most-significant-bit-first,
and verification recomputes the CRC over all bytes except the last
three and compares it with those three. -/

/-- One bit of the CRC-24Q shift register update (MSB first, polynomial
0x1864CFB, register kept to 24 bits). -/
def crcStep (s : Nat) (b : Bool) : Nat :=
  ((s <<< 1) ^^^ (if (s.testBit 23) ^^ b then 0x1864CFB else 0)) &&& 0xFFFFFF

/-- CRC-24Q of a bit string, initial value 0, no final XOR. -/
def crcBits (l : List Bool) : Nat :=
  l.foldl crcStep 0

/-- CRC-24Q of a byte string, processed most-significant bit first. -/
def crcBytes (m : List Nat) : Nat :=
  crcBits (bytesToBits m)

/-- The 24-bit value carried by three bytes, first byte most significant. -/
def byteVal3 (l : List Nat) : Nat :=
  l.getD 0 0 * 65536 + l.getD 1 0 * 256 + l.getD 2 0

/-- Modelled from the spec: Rtcm::check_CRC recomputes the CRC-24Q over
all bytes of the message except the last three and compares it with the
24-bit value carried by those three; messages shorter than the three CRC
bytes cannot carry a valid CRC and are rejected. -/
def check_CRC (m : List Nat) : Bool :=
  if m.length < 3 then false
  else crcBytes (m.take (m.length - 3)) == byteVal3 (m.drop (m.length - 3))

/-- Flips bit j (counted from the most significant, j < 8) of the byte at
position i of a byte string. -/
def flipAt : List Nat → Nat → Nat → List Nat
  | [], _, _ => []
  | b :: t, 0, j => (b ^^^ (1 <<< (7 - j))) :: t
  | b :: t, i + 1, j => b :: flipAt t i j

/-! ### RTCM framing

Modelled from the spec: Rtcm::build_message is only declared in rtcm.h
(its body is in rtcm.cc, not among the sources under review).  The spec
defines the framed message as preamble 0xD3 (8 bits), six zero reserved
bits, a 10-bit body byte count, the body, and the CRC-24Q computed over
everything preceding it. -/

/-- Frames a message body (a byte string): 0xD3, six reserved zero bits
together with the 10-bit length field in the next two bytes, the body,
then the 24-bit CRC over header plus body. -/
def buildFrame (body : List Nat) : List Nat :=
  let len := body.length
  let hdr := [0xD3, len >>> 8, len &&& 255]
  let c := crcBytes (hdr ++ body)
  hdr ++ body ++ [c >>> 16, (c >>> 8) &&& 255, c &&& 255]

/-- Message number of a framed RTCM message: the first 12 bits of the
body, which starts after the 3-byte header. -/
def msgNumberOf (m : List Nat) : Nat :=
  fieldAt (bytesToBits m) 24 12

/-! ### Message type 1005 (Stationary Antenna Reference Point)

Modelled from the spec: print_MT1005 and read_MT1005 are only declared in
rtcm.h.  The spec fixes the reference: a 12-bit message number (1005), a
12-bit reference station id, GPS/GLONASS/Galileo indicator bits and three
38-bit signed ECEF coordinates at resolution 0.0001 m, framed and CRC
protected as above.  Doubles are modelled exactly by integers counting
0.0001 m units (the field resolution), so a difference of one unit is the
spec tolerance of 0.0001 m. -/

/-- MT1005 body: DF002 message number, DF003 station id, DF021 ITRF year,
DF022/23/24 GPS/GLONASS/Galileo indicators, DF141 reference-station
indicator, DF025/26/27 ECEF X/Y/Z (38-bit signed, 0.0001 m units), DF142
single-receiver oscillator indicator, DF364 quarter-cycle indicator. -/
def mt1005Content (refId : Nat) (x y z : Int) (gps glonass galileo : Bool)
    (nonPhysical singleOsc : Bool) (qci : Nat) : List Bool :=
  natBits 12 1005 ++ natBits 12 refId ++ natBits 6 0 ++
  [gps, glonass, galileo, nonPhysical] ++ intBits 38 x ++
  [singleOsc, true] ++ intBits 38 y ++ natBits 2 qci ++ intBits 38 z

/-- Modelled from the spec: Rtcm::print_MT1005 assembles the MT1005 field
sequence and frames it (ECEF coordinates as integers in 0.0001 m). -/
def print_MT1005 (refId : Nat) (x y z : Int) (gps glonass galileo : Bool)
    (nonPhysical singleOsc : Bool) (qci : Nat) : List Nat :=
  buildFrame (bitsToBytes (mt1005Content refId x y z gps glonass galileo
    nonPhysical singleOsc qci))

/-- The outputs of read_MT1005: reference station id, ECEF coordinates in
0.0001 m units, and the three constellation indicators. -/
structure MT1005Out where
  refId : Nat
  ecefX : Int
  ecefY : Int
  ecefZ : Int
  gps : Bool
  glonass : Bool
  galileo : Bool
deriving DecidableEq

/-- A default MT1005Out record, standing for the unset output arguments
of the C++ caller. -/
def mt1005Default : MT1005Out :=
  { refId := 0, ecefX := 0, ecefY := 0, ecefZ := 0,
    gps := false, glonass := false, galileo := false }

/-- Modelled from the spec: the parsing core of Rtcm::read_MT1005 -
verify the CRC, check that the first 12 bits of the body read 1005, then
decode the fields; any failure yields no output. -/
def parse_MT1005 (m : List Nat) : Option MT1005Out :=
  if check_CRC m = false then none
  else
    let bits := bytesToBits m
    if fieldAt bits 24 12 ≠ 1005 then none
    else some
      { refId := fieldAt bits 36 12
        ecefX := sfieldAt bits 58 38
        ecefY := sfieldAt bits 98 38
        ecefZ := sfieldAt bits 138 38
        gps := (bits.getD 54 false)
        glonass := (bits.getD 55 false)
        galileo := (bits.getD 56 false) }

/-- Modelled from the spec: Rtcm::read_MT1005 returns a status code (0 on
success, 1 on failure) and only assigns its output arguments on success;
the prior values of the outputs are threaded through explicitly. -/
def read_MT1005 (m : List Nat) (old : MT1005Out) : Nat × MT1005Out :=
  match parse_MT1005 m with
  | none => (1, old)
  | some v => (0, v)

/-! ### Ephemeris message readers (MT1019, MT1020, MT1045)

Modelled from the spec: read_MT1019, read_MT1020 and read_MT1045 are only
declared in rtcm.h.  Per the spec they verify the CRC, identify the
message type from the first 12 bits of the body, and decode the ephemeris
data fields into the output record; on CRC failure or an unexpected type
they fail without touching the outputs.  The per-field bit widths below
are taken from the data-field declarations in rtcm.h (DF009..DF137 for
MT1019, DF038..DF136 for MT1020, DF252..DF315 for MT1045); the decoded
record is modelled as the list of raw field values in message order. -/

/-- Extracts consecutive unsigned fields of the given widths starting at
a bit offset. -/
def readFields (bits : List Bool) (off : Nat) : List Nat → List Nat
  | [] => []
  | w :: ws => fieldAt bits off w :: readFields bits (off + w) ws

/-- MT1019 field widths after the message number: DF009, DF076, DF077,
DF078, DF079, DF071, DF081, DF082, DF083, DF084, DF085, DF086, DF087,
DF088, DF089, DF090, DF091, DF092, DF093, DF094, DF095, DF096, DF097,
DF098, DF099, DF100, DF101, DF102, DF103, DF137 (widths from rtcm.h). -/
def mt1019Widths : List Nat :=
  [6, 10, 4, 2, 14, 8, 16, 8, 16, 22, 10, 16, 16, 32, 16, 32, 16, 32,
   16, 16, 32, 16, 32, 16, 32, 24, 8, 6, 1, 1]

/-- MT1020 field widths after the message number: DF038, DF040, DF104,
DF105, DF106, DF107, DF108, DF109, DF110, DF111, DF112, DF113, DF114,
DF115, DF116, DF117, DF118, DF119, DF120, DF121, DF122, DF123, DF124,
DF125, DF126, DF127, DF128, DF129, DF130, DF131, DF132, DF133, DF134,
DF135, DF136 (widths from rtcm.h). -/
def mt1020Widths : List Nat :=
  [6, 5, 1, 1, 2, 12, 1, 1, 7, 24, 27, 5, 24, 27, 5, 24, 27, 5, 1, 11,
   2, 1, 22, 5, 5, 1, 4, 11, 2, 1, 11, 32, 5, 22, 1]

/-- MT1045 field widths after the message number: DF252, DF289, DF290,
DF291, DF292, DF293, DF294, DF295, DF296, DF297, DF298, DF299, DF300,
DF301, DF302, DF303, DF304, DF305, DF306, DF307, DF308, DF309, DF310,
DF311, DF312, DF313, DF314, DF315 (widths from rtcm.h). -/
def mt1045Widths : List Nat :=
  [6, 12, 10, 8, 14, 14, 6, 21, 31, 16, 16, 32, 16, 32, 16, 32, 14, 16,
   32, 16, 32, 16, 32, 24, 10, 10, 2, 1]

/-- Modelled from the spec: the shared reader skeleton - verify the CRC,
check the expected message number in the first 12 bits of the body, then
decode the given field sequence (body fields start at bit 36, after the
3-byte framing header and the 12-bit message number). -/
def parseEphMessage (expected : Nat) (widths : List Nat) (m : List Nat) :
    Option (List Nat) :=
  if check_CRC m = false then none
  else if msgNumberOf m ≠ expected then none
  else some (readFields (bytesToBits m) 36 widths)

/-- Modelled from the spec: Rtcm::read_MT1019 (GPS ephemeris), status 0
on success and 1 on failure, outputs untouched on failure. -/
def read_MT1019 (m : List Nat) (old : List Nat) : Nat × List Nat :=
  match parseEphMessage 1019 mt1019Widths m with
  | none => (1, old)
  | some v => (0, v)

/-- Modelled from the spec: Rtcm::read_MT1020 (GLONASS ephemeris), status
0 on success and 1 on failure, outputs untouched on failure. -/
def read_MT1020 (m : List Nat) (old : List Nat) : Nat × List Nat :=
  match parseEphMessage 1020 mt1020Widths m with
  | none => (1, old)
  | some v => (0, v)

/-- Modelled from the spec: Rtcm::read_MT1045 (Galileo ephemeris), status
0 on success and 1 on failure, outputs untouched on failure. -/
def read_MT1045 (m : List Nat) (old : List Nat) : Nat × List Nat :=
  match parseEphMessage 1045 mt1045Widths m with
  | none => (1, old)
  | some v => (0, v)

/-! ### Transport envelope (class Rtcm_Message, rtcm.h lines 543-638)

The 6-byte ASCII envelope header and the body-length bookkeeping are
implemented inline in rtcm.h and are translated here directly.  The
member body_length_ is passed explicitly.  Bytes are ASCII codes:
71 is G, 83 is S, 32 is the space, 43 is the plus sign, 45 is the
minus sign, 48..57 are the digits. -/

/-- The maximum body length of the transport envelope (rtcm.h line 547). -/
def max_body_length : Nat := 1029

/-- Rtcm_Message::body_length(std::size_t): stores the argument and then
clamps the stored value to max_body_length (rtcm.h lines 584-591). -/
def body_length_set (n : Nat) : Nat :=
  let b := n
  if b > max_body_length then max_body_length else b

/-- True for the characters std::isspace accepts in the C locale (space,
tab, newline, vertical tab, form feed, carriage return). -/
def isSpaceByte (c : Nat) : Bool :=
  c == 32 || c == 9 || c == 10 || c == 11 || c == 12 || c == 13

/-- True for the ASCII digits. -/
def isDigitByte (c : Nat) : Bool :=
  48 ≤ c && c ≤ 57

/-- Greedy decimal accumulation of std::stoi: consume digits, stop at the
first non-digit (which std::stoi ignores). -/
def stoiDigits : List Nat → Nat → Nat
  | [], acc => acc
  | c :: t, acc =>
      if isDigitByte c then stoiDigits t (10 * acc + (c - 48)) else acc

/-- Digit part of std::stoi: fails unless at least one digit follows. -/
def stoiAfterSign (l : List Nat) : Option Nat :=
  match l with
  | [] => none
  | c :: _ => if isDigitByte c then some (stoiDigits l 0) else none

/-- Leading-whitespace skipping of std::stoi. -/
def stoiSkipSpace : List Nat → List Nat
  | [] => []
  | c :: t => if isSpaceByte c then stoiSkipSpace t else c :: t

/-- Sign handling of std::stoi, applied after whitespace skipping: an
optional single plus or minus sign, then the digit part (note that the
digit part of an empty list fails, so a lone sign fails as well). -/
def stoiModelCore : List Nat → Option Int
  | [] => none
  | c :: t =>
      if c = 43 then (stoiAfterSign t).map (fun n => Int.ofNat n)
      else if c = 45 then (stoiAfterSign t).map (fun n => -(Int.ofNat n))
      else (stoiAfterSign (c :: t)).map (fun n => Int.ofNat n)

/-- std::stoi on a short character string: skip leading whitespace, an
optional single sign, then at least one decimal digit, ignoring anything
after the digits; none models the std::invalid_argument exception.  (The
envelope passes at most four characters, so the std::out_of_range
overflow of a 32-bit int cannot occur and is not modelled.) -/
def stoiModel (l : List Nat) : Option Int :=
  stoiModelCore (stoiSkipSpace l)

/-- Conversion of the int returned by std::stoi to the std::size_t member
body_length_ (64-bit wraparound for negative values). -/
def toSizeT (v : Int) : Nat :=
  (v % (2 ^ 64)).toNat

/-- The tail of Rtcm_Message::decode_header (rtcm.h lines 601-623): the
stoi result is stored into body_length_ (a parse failure resets it to 0
and rejects); a stored value of zero, or one above max_body_length
(which also resets it to 0), is rejected as well. -/
def decode_header_core : Option Int → Bool × Nat
  | none => (false, 0)
  | some v =>
      if toSizeT v = 0 then (false, 0)
      else if toSizeT v > max_body_length then (false, 0)
      else (true, toSizeT v)

/-- Rtcm_Message::decode_header (rtcm.h lines 593-624): takes the six
header bytes and the current body_length_, returns the result together
with the new body_length_.  The guard on the first two bytes, G and S,
runs before std::stoi, so a failed guard leaves body_length_
unchanged. -/
def decode_header (hdr : List Nat) (bl : Nat) : Bool × Nat :=
  if hdr.getD 0 0 ≠ 71 ∨ hdr.getD 1 0 ≠ 83 then (false, bl)
  else decode_header_core (stoiModel (hdr.drop 2))

/-- The four header characters that std::setw(4) produces for a value
below 10000: decimal digits right-justified in four columns, padded on
the left with the stream fill character, which encode_header leaves at
its default, the space (rtcm.h line 629 sets no fill). -/
def setw4Bytes (v : Nat) : List Nat :=
  if v < 10 then [32, 32, 32, 48 + v]
  else if v < 100 then [32, 32, 48 + v / 10, 48 + v % 10]
  else if v < 1000 then [32, 48 + v / 100, 48 + (v / 10) % 10, 48 + v % 10]
  else [48 + v / 1000, 48 + (v / 100) % 10, 48 + (v / 10) % 10, 48 + v % 10]

/-- Rtcm_Message::encode_header (rtcm.h lines 626-633): writes G, S and
the stored body length clamped to 0..max_body_length, formatted by
std::setw(4) with the default space fill; the resize to six characters
never adds anything because the formatted header already has six. -/
def encode_header (bl : Nat) : List Nat :=
  [71, 83] ++ setw4Bytes (min bl max_body_length)

/-- The claim's reading of the header format: G, S and the zero-padded
4-digit decimal representation of the body length (stated for comparison
with encode_header; the source uses the space fill instead). -/
def zeroPadded4Header (n : Nat) : List Nat :=
  [71, 83, 48 + n / 1000, 48 + (n / 100) % 10, 48 + (n / 10) % 10, 48 + n % 10]

/-! ### Broadcast room (class Rtcm_Listener_Room, rtcm.h lines 649-687)

Translated from the source: participants are identified abstractly (by a
natural number standing for the shared_ptr identity), messages are byte
strings, and the deque recent_msgs_ with max_recent_msgs = 1 is a list.
join and deliver also return the deliveries they make, so that what each
participant receives is visible. -/

/-- The room state: the participant set and the replay ring. -/
structure RoomState where
  participants : List Nat
  recent : List (List Nat)

/-- The trimming loop of deliver: pop the front while more than
max_recent_msgs = 1 messages are held. -/
def trimToOne : List (List Nat) → List (List Nat)
  | [] => []
  | [a] => [a]
  | _ :: b :: t => trimToOne (b :: t)

/-- Rtcm_Listener_Room::join: add the participant and replay every held
message to it; returns the new state and the replayed messages. -/
def roomJoin (s : RoomState) (p : Nat) : RoomState × List (List Nat) :=
  ({ participants := p :: s.participants, recent := s.recent }, s.recent)

/-- Rtcm_Listener_Room::deliver: push the message onto the replay ring,
trim the ring to one entry, then deliver to every participant; returns
the new state and the (participant, message) deliveries made. -/
def roomDeliver (s : RoomState) (msg : List Nat) :
    RoomState × List (Nat × List Nat) :=
  ({ participants := s.participants, recent := trimToOne (s.recent ++ [msg]) },
   s.participants.map (fun p => (p, msg)))

/-! ### Queue reader (class Queue_Reader, rtcm.h lines 912-952)

Translated from the source: do_read_queue pops strings from the
concurrent queue until the sentinel Goodbye arrives; every earlier
message is placed in a fresh Rtcm_Message (body_length clamps to 1029 and
copy_n copies that many bytes), the envelope header is encoded, and the
message is written to the single internal client, which transmits
data()[0 .. header_length + body_length).  The sequence of popped strings
is the input list; the output is the byte strings written to the wire. -/

/-- The sentinel string Goodbye as ASCII bytes. -/
def goodbyeBytes : List Nat := [71, 111, 111, 100, 98, 121, 101]

/-- One iteration body: the wire bytes written for one popped message
(envelope header for the clamped length, then the copied body bytes). -/
def wrapMsg (m : List Nat) : List Nat :=
  let bl := body_length_set m.length
  encode_header bl ++ m.take bl

/-- Queue_Reader::do_read_queue on the sequence of popped strings: stops
at the sentinel, otherwise wraps and writes each message in order. -/
def do_read_queue : List (List Nat) → List (List Nat)
  | [] => []
  | m :: rest =>
      if m = goodbyeBytes then []
      else wrapMsg m :: do_read_queue rest

/-! ### Lock-time bookkeeping

Modelled from the spec: Rtcm::lock_time is only declared in rtcm.h (its
body is in rtcm.cc); rtcm.h shows the per-signal tables of 64 last-lock
times (lines 526-531).  Per the spec, each call compares the observation
timestamp against the stored last-change time of the satellite slot,
initialises the slot when it holds no timestamp yet, and returns the
elapsed duration; timestamps are modelled as integers (seconds). -/

/-- One lock-time table: 64 slots, each optionally holding the last
state-change timestamp. -/
def LockTable : Type := Fin 64 → Option Int

/-- Modelled from the spec: one lock_time call on a table slot.  An empty
slot is set to the current observation time first; the returned duration
is the elapsed time since the stored timestamp. -/
def lock_time (s : LockTable) (slot : Fin 64) (t : Int) : Int × LockTable :=
  match s slot with
  | none => (0, fun j => if j = slot then some t else s j)
  | some last => (t - last, s)

/-! ### Shared lemmas -/

theorem body_length_set_eq_min (n : Nat) :
    body_length_set n = min n max_body_length := by
  show (if n > max_body_length then max_body_length else n) = _
  split <;> omega

theorem trimToOne_append (l : List (List Nat)) (m : List Nat) :
    trimToOne (l ++ [m]) = [m] := by
  induction l with
  | nil => rfl
  | cons a t ih =>
    cases t with
    | nil => rfl
    | cons b t2 => exact ih

/-! ### Claim theorems -/

/-- C7: for every satellite slot of the 64-entry lock-time table and
every observation timestamp t, if a first lock_time call left t stored as
the slot's last-change time, a second call with the same slot and the
identical timestamp returns a duration of 0. -/
theorem c7_lock_time_second_call_zero (s : LockTable) (slot : Fin 64)
    (t : Int) (h : (lock_time s slot t).2 slot = some t) :
    (lock_time ((lock_time s slot t).2) slot t).1 = 0 := by
  set s2 := (lock_time s slot t).2 with hs2
  clear_value s2
  unfold lock_time
  rw [h]
  simp

/-- Witness for C7 at a concrete table, slot and timestamp: the empty
table, slot 0 and timestamp 100. -/
theorem c7_witness :
    (lock_time ((lock_time (fun _ => none) (0 : Fin 64) 100).2)
      (0 : Fin 64) 100).1 = 0 :=
  c7_lock_time_second_call_zero (fun _ => none) (0 : Fin 64) 100
    (by simp [lock_time])

/-- C8: a deliver on a room with no participants makes no deliveries (and
is total, hence cannot throw) while still storing the message; after any
deliver the replay ring holds exactly the delivered message; and a
participant joining after a deliver is replayed exactly that one
message. -/
theorem c8_room_replay_ring (s : RoomState) (msg : List Nat) (p : Nat) :
    (s.participants = [] → (roomDeliver s msg).2 = []) ∧
    (roomDeliver s msg).1.recent = [msg] ∧
    (roomJoin (roomDeliver s msg).1 p).2 = [msg] := by
  refine ⟨fun h => ?_, ?_, ?_⟩
  · simp [roomDeliver, h]
  · simp [roomDeliver, trimToOne_append]
  · simp [roomJoin, roomDeliver, trimToOne_append]

/-- Witness for C8 at a concrete room with no participants, a concrete
message and a concrete joiner. -/
theorem c8_witness :
    ((RoomState.mk [] []).participants = [] →
      (roomDeliver (RoomState.mk [] []) [1, 2]).2 = []) ∧
    (roomDeliver (RoomState.mk [] []) [1, 2]).1.recent = [[1, 2]] ∧
    (roomJoin (roomDeliver (RoomState.mk [] []) [1, 2]).1 7).2 = [[1, 2]] :=
  c8_room_replay_ring (RoomState.mk [] []) [1, 2] 7

/-- C10: Rtcm_Message::body_length(n) silently clamps its argument to
min n 1029 (it is total and reports nothing), so a queue message longer
than 1029 bytes is forwarded with its body truncated to the first 1029
bytes. -/
theorem c10_body_length_clamps (n : Nat) (m : List Nat)
    (h : 1029 < m.length) :
    body_length_set n = min n 1029 ∧
    (wrapMsg m).drop 6 = m.take 1029 ∧
    ((wrapMsg m).drop 6).length = 1029 := by
  have hbl : body_length_set m.length = 1029 := by
    rw [body_length_set_eq_min]
    unfold max_body_length
    omega
  have henc : (encode_header (body_length_set m.length)).length = 6 := by
    rw [hbl]
    rfl
  have hw : wrapMsg m = encode_header 1029 ++ m.take 1029 := by
    unfold wrapMsg
    rw [hbl]
  have hdrop : (wrapMsg m).drop 6 = m.take 1029 := by
    rw [hw]
    rfl
  refine ⟨by rw [body_length_set_eq_min]; rfl, hdrop, ?_⟩
  rw [hdrop, List.length_take]
  omega

/-- Witness for C10 at a concrete length argument and a concrete 1030-byte
message. -/
theorem c10_witness :
    body_length_set 5 = min 5 1029 ∧
    (wrapMsg (List.replicate 1030 0)).drop 6 =
      (List.replicate 1030 0).take 1029 ∧
    ((wrapMsg (List.replicate 1030 0)).drop 6).length = 1029 :=
  c10_body_length_clamps 5 (List.replicate 1030 0)
    (by rw [List.length_replicate]; omega)

/-- C1: encoding MT1005 with ref_id 4, ECEF coordinates 4075580.0,
931853.0 and 4801568.0 metres (40755800000, 9318530000 and 48015680000
in the 0.0001 m field units of the model), gps set and glonass/galileo
clear, then applying read_MT1005 to the result, returns status 0 and
recovers ref_id 4 and each ECEF coordinate within 0.0001 m (at most one
0.0001 m unit) of the encoded value. -/
theorem c1_mt1005_encode_decode :
    (read_MT1005 (print_MT1005 4 40755800000 9318530000 48015680000
        true false false false false 0) mt1005Default).1 = 0 ∧
    (read_MT1005 (print_MT1005 4 40755800000 9318530000 48015680000
        true false false false false 0) mt1005Default).2.refId = 4 ∧
    ((read_MT1005 (print_MT1005 4 40755800000 9318530000 48015680000
        true false false false false 0) mt1005Default).2.ecefX -
      40755800000).natAbs ≤ 1 ∧
    ((read_MT1005 (print_MT1005 4 40755800000 9318530000 48015680000
        true false false false false 0) mt1005Default).2.ecefY -
      9318530000).natAbs ≤ 1 ∧
    ((read_MT1005 (print_MT1005 4 40755800000 9318530000 48015680000
        true false false false false 0) mt1005Default).2.ecefZ -
      48015680000).natAbs ≤ 1 := by
  set_option maxRecDepth 10000 in decide

/-- C3 counterexample: the framed message for the empty body has 6 bytes
(3 header bytes, 0 body bytes, 3 CRC bytes), not the 6 + L + 3 = 9 bytes
the claim states: the framing header is 24 bits = 3 bytes, not 6. -/
theorem c3_counterexample :
    ¬ ((buildFrame []).length = 6 + ([] : List Nat).length + 3) := by
  decide

/-- C3 amended: for every body of length L with L ≤ 1023, the framed
message has total length 3 + L + 3 bytes (the 8-bit preamble, 6 reserved
bits and 10-bit length field together occupy 3 bytes), begins with the
preamble 0xD3 followed by six zero reserved bits, and its 10-bit length
field decodes back to L. -/
theorem c3_framing_amended (body : List Nat) (h : body.length ≤ 1023) :
    (buildFrame body).length = 3 + body.length + 3 ∧
    (buildFrame body).getD 0 0 = 0xD3 ∧
    (buildFrame body).getD 1 0 >>> 2 = 0 ∧
    ((buildFrame body).getD 1 0 &&& 3) * 256 + (buildFrame body).getD 2 0 =
      body.length := by
  have h255 : body.length &&& 255 = body.length % 256 := by
    have : (255 : Nat) = 2 ^ 8 - 1 := by norm_num
    rw [this, Nat.and_pow_two_sub_one_eq_mod]
  have h8 : body.length >>> 8 = body.length / 256 := by
    rw [Nat.shiftRight_eq_div_pow]
  have h3 : (body.length >>> 8) &&& 3 = (body.length >>> 8) % 4 := by
    have : (3 : Nat) = 2 ^ 2 - 1 := by norm_num
    rw [this, Nat.and_pow_two_sub_one_eq_mod]
  refine ⟨?_, ?_, ?_, ?_⟩
  · simp only [buildFrame, List.length_append, List.length_cons,
      List.length_nil]
  · simp [buildFrame]
  · simp only [buildFrame, List.cons_append, List.getD_cons_succ,
      List.getD_cons_zero]
    rw [Nat.shiftRight_eq_div_pow, h8]
    omega
  · simp only [buildFrame, List.cons_append, List.getD_cons_succ,
      List.getD_cons_zero]
    rw [h3, h8, h255]
    omega

/-- Witness for the amended C3 at a concrete 3-byte body. -/
theorem c3_witness :
    (buildFrame [1, 2, 3]).length = 3 + [1, 2, 3].length + 3 ∧
    (buildFrame [1, 2, 3]).getD 0 0 = 0xD3 ∧
    (buildFrame [1, 2, 3]).getD 1 0 >>> 2 = 0 ∧
    ((buildFrame [1, 2, 3]).getD 1 0 &&& 3) * 256 +
      (buildFrame [1, 2, 3]).getD 2 0 = [1, 2, 3].length :=
  c3_framing_amended [1, 2, 3] (by decide)

/-- C4: each of the four message readers is a total function returning
status 0 or 1 (never an exception), and whenever the CRC check fails or
the message number is not the expected one it returns status 1 with every
output left at its prior value. -/
theorem c4_readers_fail_safe (m : List Nat) (o5 : MT1005Out)
    (o19 o20 o45 : List Nat) :
    ((read_MT1005 m o5).1 = 0 ∨ (read_MT1005 m o5).1 = 1) ∧
    ((read_MT1019 m o19).1 = 0 ∨ (read_MT1019 m o19).1 = 1) ∧
    ((read_MT1020 m o20).1 = 0 ∨ (read_MT1020 m o20).1 = 1) ∧
    ((read_MT1045 m o45).1 = 0 ∨ (read_MT1045 m o45).1 = 1) ∧
    (check_CRC m = false →
      read_MT1005 m o5 = (1, o5) ∧ read_MT1019 m o19 = (1, o19) ∧
      read_MT1020 m o20 = (1, o20) ∧ read_MT1045 m o45 = (1, o45)) ∧
    (msgNumberOf m ≠ 1005 → read_MT1005 m o5 = (1, o5)) ∧
    (msgNumberOf m ≠ 1019 → read_MT1019 m o19 = (1, o19)) ∧
    (msgNumberOf m ≠ 1020 → read_MT1020 m o20 = (1, o20)) ∧
    (msgNumberOf m ≠ 1045 → read_MT1045 m o45 = (1, o45)) := by
  refine ⟨?_, ?_, ?_, ?_, fun hc => ⟨?_, ?_, ?_, ?_⟩, fun ht => ?_,
    fun ht => ?_, fun ht => ?_, fun ht => ?_⟩
  · cases hp : parse_MT1005 m <;> simp [read_MT1005, hp]
  · cases hp : parseEphMessage 1019 mt1019Widths m <;>
      simp [read_MT1019, hp]
  · cases hp : parseEphMessage 1020 mt1020Widths m <;>
      simp [read_MT1020, hp]
  · cases hp : parseEphMessage 1045 mt1045Widths m <;>
      simp [read_MT1045, hp]
  · simp [read_MT1005, parse_MT1005, hc]
  · simp [read_MT1019, parseEphMessage, hc]
  · simp [read_MT1020, parseEphMessage, hc]
  · simp [read_MT1045, parseEphMessage, hc]
  · unfold msgNumberOf at ht
    by_cases hc : check_CRC m = false
    · simp [read_MT1005, parse_MT1005, hc]
    · simp [read_MT1005, parse_MT1005, hc, ht]
  · by_cases hc : check_CRC m = false
    · simp [read_MT1019, parseEphMessage, hc]
    · simp [read_MT1019, parseEphMessage, hc, ht]
  · by_cases hc : check_CRC m = false
    · simp [read_MT1020, parseEphMessage, hc]
    · simp [read_MT1020, parseEphMessage, hc, ht]
  · by_cases hc : check_CRC m = false
    · simp [read_MT1045, parseEphMessage, hc]
    · simp [read_MT1045, parseEphMessage, hc, ht]

/-- Witness for C4 at the empty message, whose CRC check fails: all four
readers return status 1 and leave the outputs untouched. -/
theorem c4_witness :
    read_MT1005 [] mt1005Default = (1, mt1005Default) ∧
    read_MT1019 [] [] = (1, []) ∧
    read_MT1020 [] [] = (1, []) ∧
    read_MT1045 [] [] = (1, []) :=
  (c4_readers_fail_safe [] mt1005Default [] [] []).2.2.2.2.1 (by decide)

/-- C9 counterexample: a 1030-byte message popped before the sentinel is
not forwarded with its body length set to the message length: the wire
message written for it carries only 6 + 1029 bytes (the envelope clamps
the body length to 1029 and truncates), not 6 + 1030. -/
theorem c9_counterexample :
    ((do_read_queue [List.replicate 1030 97, goodbyeBytes]).getD 0
        []).length ≠ 6 + (List.replicate 1030 97).length := by
  set_option maxRecDepth 100000 in decide

/-- C9 amended: for every popped sequence containing the sentinel
Goodbye, do_read_queue terminates at the first occurrence of the
sentinel without forwarding it, and forwards exactly the messages popped
before it, once each and in pop order, each wrapped in the 6-byte
envelope with body length min(message length, 1029) followed by that
many body bytes. -/
theorem c9_queue_reader_amended (q : List (List Nat))
    (h : goodbyeBytes ∈ q) :
    do_read_queue q =
      (q.takeWhile (fun m => m != goodbyeBytes)).map
        (fun m => encode_header (min m.length 1029) ++
          m.take (min m.length 1029)) := by
  induction q with
  | nil => cases h
  | cons a t ih =>
    by_cases ha : a = goodbyeBytes
    · subst ha
      simp [do_read_queue, List.takeWhile_cons]
    · have ht : goodbyeBytes ∈ t := by
        rcases List.mem_cons.mp h with h1 | h2
        · exact absurd h1.symm ha
        · exact h2
      rw [show do_read_queue (a :: t) = wrapMsg a :: do_read_queue t from
        by simp [do_read_queue, ha]]
      rw [show (a :: t).takeWhile (fun m => m != goodbyeBytes) =
          a :: t.takeWhile (fun m => m != goodbyeBytes) from
        by simp [List.takeWhile_cons, ha]]
      rw [List.map_cons, ih ht]
      unfold wrapMsg
      rw [body_length_set_eq_min]
      rfl

/-- Witness for the amended C9 at a concrete queue: one short message
followed by the sentinel. -/
theorem c9_witness :
    do_read_queue [[1, 2], goodbyeBytes] =
      ([[1, 2], goodbyeBytes].takeWhile (fun m => m != goodbyeBytes)).map
        (fun m => encode_header (min m.length 1029) ++
          m.take (min m.length 1029)) :=
  c9_queue_reader_amended [[1, 2], goodbyeBytes] (by decide)

/-! ### Lemmas on the std::stoi model -/

theorem isSpaceByte_digit_false (c : Nat) (h1 : 48 ≤ c) :
    isSpaceByte c = false := by
  unfold isSpaceByte
  simp only [Bool.or_eq_false_iff, beq_eq_false_iff_ne, ne_eq]
  omega

theorem isDigitByte_true (c : Nat) (h1 : 48 ≤ c) (h2 : c ≤ 57) :
    isDigitByte c = true := by
  unfold isDigitByte
  simp only [Bool.and_eq_true, decide_eq_true_eq]
  omega

theorem stoiDigits_lt (l : List Nat) (acc : Nat) :
    stoiDigits l acc < (acc + 1) * 10 ^ l.length := by
  induction l generalizing acc with
  | nil =>
    rw [stoiDigits]
    simp only [List.length_nil, pow_zero, Nat.mul_one]
    omega
  | cons c t ih =>
    rw [stoiDigits]
    by_cases hc : isDigitByte c = true
    · rw [if_pos hc]
      have hd : c - 48 ≤ 9 := by
        unfold isDigitByte at hc
        simp only [Bool.and_eq_true, decide_eq_true_eq] at hc
        omega
      calc stoiDigits t (10 * acc + (c - 48))
          < (10 * acc + (c - 48) + 1) * 10 ^ t.length := ih _
        _ ≤ ((acc + 1) * 10) * 10 ^ t.length :=
            Nat.mul_le_mul_right _ (by omega)
        _ = (acc + 1) * 10 ^ (c :: t).length := by
            rw [List.length_cons, pow_succ]
            ring
    · rw [if_neg hc]
      have h10 : 1 ≤ 10 ^ (c :: t).length := Nat.one_le_pow _ _ (by norm_num)
      calc acc < acc + 1 := Nat.lt_succ_self acc
        _ = (acc + 1) * 1 := (Nat.mul_one _).symm
        _ ≤ (acc + 1) * 10 ^ (c :: t).length :=
            Nat.mul_le_mul_left _ h10

theorem stoiSkipSpace_length (l : List Nat) :
    (stoiSkipSpace l).length ≤ l.length := by
  induction l with
  | nil => simp [stoiSkipSpace]
  | cons c t ih =>
    rw [stoiSkipSpace]
    split
    · exact Nat.le_trans ih (by simp)
    · simp

theorem stoiAfterSign_lt (l : List Nat) (v : Nat)
    (h : stoiAfterSign l = some v) : v < 10 ^ l.length := by
  cases l with
  | nil => cases h
  | cons c t =>
    rw [stoiAfterSign] at h
    split at h
    · cases h
      simpa using stoiDigits_lt (c :: t) 0
    · cases h

theorem map_coe_eq_some (o : Option Nat) (v : Int)
    (h : o.map (fun n => Int.ofNat n) = some v) :
    ∃ n : Nat, o = some n ∧ v.natAbs = n := by
  cases o with
  | none => cases h
  | some a =>
    refine ⟨a, rfl, ?_⟩
    rw [Option.map_some'] at h
    rw [← Option.some.inj h]
    simp

theorem map_neg_coe_eq_some (o : Option Nat) (v : Int)
    (h : o.map (fun n => -(Int.ofNat n)) = some v) :
    ∃ n : Nat, o = some n ∧ v.natAbs = n := by
  cases o with
  | none => cases h
  | some a =>
    refine ⟨a, rfl, ?_⟩
    rw [Option.map_some'] at h
    rw [← Option.some.inj h]
    simp

theorem stoiModel_bound (l : List Nat) (v : Int)
    (h : stoiModel l = some v) : v.natAbs < 10 ^ l.length := by
  unfold stoiModel at h
  have hlen := stoiSkipSpace_length l
  cases hs : stoiSkipSpace l with
  | nil => rw [hs] at h; cases h
  | cons c t =>
    rw [hs] at h
    rw [hs] at hlen
    have ht : t.length ≤ l.length := by
      simp only [List.length_cons] at hlen
      omega
    have hpow : 10 ^ t.length ≤ 10 ^ l.length :=
      Nat.pow_le_pow_right (by norm_num) ht
    have hpow2 : 10 ^ (c :: t).length ≤ 10 ^ l.length :=
      Nat.pow_le_pow_right (by norm_num) hlen
    rw [stoiModelCore] at h
    split at h
    · rcases map_coe_eq_some _ _ h with ⟨n, hn, hv⟩
      rw [hv]
      exact Nat.lt_of_lt_of_le (stoiAfterSign_lt t n hn) hpow
    · split at h
      · rcases map_neg_coe_eq_some _ _ h with ⟨n, hn, hv⟩
        rw [hv]
        exact Nat.lt_of_lt_of_le (stoiAfterSign_lt t n hn) hpow
      · rcases map_coe_eq_some _ _ h with ⟨n, hn, hv⟩
        rw [hv]
        exact Nat.lt_of_lt_of_le (stoiAfterSign_lt (c :: t) n hn) hpow2


/-- C5 counterexample: the header GS0000 carries the four decimal digits
0000, whose value 0 lies in the claimed range 0-1029, yet decode_header
rejects it (a zero body length is refused); and the header GS+042 has a
non-digit character in its length field, which the claim says is
rejected, yet decode_header accepts it (std::stoi accepts a sign). -/
theorem c5_counterexample :
    (decode_header [71, 83, 48, 48, 48, 48] 0).1 = false ∧
    (decode_header [71, 83, 43, 48, 52, 50] 0).1 = true := by
  decide

/-- C5 amended: a 6-byte header is accepted exactly when its first two
bytes are G and S and std::stoi parses its last four bytes (optional
leading whitespace, optional sign, at least one digit, trailing
characters ignored) as a value between 1 and 1029; on acceptance the
stored body length is that parsed value. -/
theorem c5_decode_header_amended (hdr : List Nat) (bl : Nat)
    (h : hdr.length = 6) :
    ((decode_header hdr bl).1 = true ↔
      (hdr.getD 0 0 = 71 ∧ hdr.getD 1 0 = 83 ∧
        ∃ v : Int, stoiModel (hdr.drop 2) = some v ∧ 1 ≤ v ∧ v ≤ 1029)) ∧
    ((decode_header hdr bl).1 = true →
      stoiModel (hdr.drop 2) =
        some (((decode_header hdr bl).2 : Nat) : Int)) := by
  have hlen4 : (hdr.drop 2).length = 4 := by
    rw [List.length_drop, h]
  unfold decode_header
  by_cases hg : hdr.getD 0 0 ≠ 71 ∨ hdr.getD 1 0 ≠ 83
  · rw [if_pos hg]
    constructor
    · simp only [Bool.false_eq_true, false_iff]
      rintro ⟨h1, h2, -⟩
      rcases hg with hg | hg <;> exact hg (by assumption)
    · intro hfalse
      cases hfalse
  · rw [if_neg hg]
    push_neg at hg
    cases hm : stoiModel (hdr.drop 2) with
    | none =>
      rw [decode_header_core]
      constructor
      · simp only [Bool.false_eq_true, false_iff]
        rintro ⟨-, -, v, hv, -⟩
        cases hv
      · intro hfalse
        cases hfalse
    | some v =>
      have hb : v.natAbs < 10000 := by
        have := stoiModel_bound _ _ hm
        rw [hlen4] at this
        norm_num at this
        exact this
      have h64 : ((2 : Int) ^ 64) = 18446744073709551616 := by norm_num
      rw [decode_header_core]
      by_cases h0 : toSizeT v = 0
      · rw [if_pos h0]
        constructor
        · simp only [Bool.false_eq_true, false_iff]
          rintro ⟨-, -, w, hw, hw1, hw2⟩
          have hvw : v = w := Option.some.inj hw
          subst hvw
          unfold toSizeT at h0
          rw [h64] at h0
          omega
        · intro hfalse
          cases hfalse
      · rw [if_neg h0]
        by_cases h1 : toSizeT v > max_body_length
        · rw [if_pos h1]
          constructor
          · simp only [Bool.false_eq_true, false_iff]
            rintro ⟨-, -, w, hw, hw1, hw2⟩
            have hvw : v = w := Option.some.inj hw
            subst hvw
            unfold toSizeT at h0 h1
            unfold max_body_length at h1
            rw [h64] at h0 h1
            omega
          · intro hfalse
            cases hfalse
        · rw [if_neg h1]
          have hv1 : 1 ≤ v ∧ v ≤ 1029 := by
            unfold toSizeT at h0 h1
            unfold max_body_length at h1
            rw [h64] at h0 h1
            omega
          constructor
          · simp only [true_iff]
            exact ⟨hg.1, hg.2, v, rfl, hv1.1, hv1.2⟩
          · intro _
            have heq : ((toSizeT v : Nat) : Int) = v := by
              unfold toSizeT
              rw [h64]
              omega
            rw [heq]

/-- Witness for the amended C5 at the concrete header GS0042, which is
accepted with body length 42. -/
theorem c5_witness :
    (decode_header [71, 83, 48, 48, 52, 50] 0).1 = true :=
  ((c5_decode_header_amended [71, 83, 48, 48, 52, 50] 0 rfl).1).mpr
    ⟨rfl, rfl, 42, by decide, by decide, by decide⟩

theorem stoiSkipSpace_space (c : Nat) (t : List Nat)
    (h : isSpaceByte c = true) : stoiSkipSpace (c :: t) = stoiSkipSpace t := by
  rw [stoiSkipSpace, if_pos h]

theorem stoiSkipSpace_nonspace (c : Nat) (t : List Nat)
    (h : isSpaceByte c = false) : stoiSkipSpace (c :: t) = c :: t := by
  rw [stoiSkipSpace, if_neg (by simp [h])]

theorem stoiModel_setw4 (n : Nat) (h : n < 10000) :
    stoiModel (setw4Bytes n) = some (Int.ofNat n) := by
  unfold setw4Bytes
  by_cases h1 : n < 10
  · rw [if_pos h1]
    unfold stoiModel
    rw [stoiSkipSpace_space 32 _ rfl, stoiSkipSpace_space 32 _ rfl,
        stoiSkipSpace_space 32 _ rfl,
        stoiSkipSpace_nonspace _ _ (isSpaceByte_digit_false _ (by omega))]
    rw [stoiModelCore, if_neg (by omega), if_neg (by omega)]
    rw [stoiAfterSign, if_pos (isDigitByte_true _ (by omega) (by omega))]
    rw [stoiDigits, if_pos (isDigitByte_true _ (by omega) (by omega)),
        stoiDigits]
    simp only [Option.map_some']
    exact congrArg (fun m => some (Int.ofNat m)) (by omega)
  · rw [if_neg h1]
    by_cases h2 : n < 100
    · rw [if_pos h2]
      have hq : n / 10 ≤ 9 := by omega
      have hr : n % 10 ≤ 9 := by omega
      unfold stoiModel
      rw [stoiSkipSpace_space 32 _ rfl, stoiSkipSpace_space 32 _ rfl,
          stoiSkipSpace_nonspace _ _ (isSpaceByte_digit_false _ (by omega))]
      rw [stoiModelCore, if_neg (by omega), if_neg (by omega)]
      rw [stoiAfterSign, if_pos (isDigitByte_true _ (by omega) (by omega))]
      rw [stoiDigits, if_pos (isDigitByte_true _ (by omega) (by omega)),
          stoiDigits, if_pos (isDigitByte_true _ (by omega) (by omega)),
          stoiDigits]
      simp only [Option.map_some']
      exact congrArg (fun m => some (Int.ofNat m)) (by omega)
    · rw [if_neg h2]
      by_cases h3 : n < 1000
      · rw [if_pos h3]
        have hq : n / 100 ≤ 9 := by omega
        have hr1 : (n / 10) % 10 ≤ 9 := by omega
        have hr : n % 10 ≤ 9 := by omega
        unfold stoiModel
        rw [stoiSkipSpace_space 32 _ rfl,
            stoiSkipSpace_nonspace _ _ (isSpaceByte_digit_false _ (by omega))]
        rw [stoiModelCore, if_neg (by omega), if_neg (by omega)]
        rw [stoiAfterSign, if_pos (isDigitByte_true _ (by omega) (by omega))]
        rw [stoiDigits, if_pos (isDigitByte_true _ (by omega) (by omega)),
            stoiDigits, if_pos (isDigitByte_true _ (by omega) (by omega)),
            stoiDigits, if_pos (isDigitByte_true _ (by omega) (by omega)),
            stoiDigits]
        simp only [Option.map_some']
        exact congrArg (fun m => some (Int.ofNat m)) (by omega)
      · rw [if_neg h3]
        have hq : n / 1000 ≤ 9 := by omega
        have hr2 : (n / 100) % 10 ≤ 9 := by omega
        have hr1 : (n / 10) % 10 ≤ 9 := by omega
        have hr : n % 10 ≤ 9 := by omega
        unfold stoiModel
        rw [stoiSkipSpace_nonspace _ _ (isSpaceByte_digit_false _ (by omega))]
        rw [stoiModelCore, if_neg (by omega), if_neg (by omega)]
        rw [stoiAfterSign, if_pos (isDigitByte_true _ (by omega) (by omega))]
        rw [stoiDigits, if_pos (isDigitByte_true _ (by omega) (by omega)),
            stoiDigits, if_pos (isDigitByte_true _ (by omega) (by omega)),
            stoiDigits, if_pos (isDigitByte_true _ (by omega) (by omega)),
            stoiDigits, if_pos (isDigitByte_true _ (by omega) (by omega)),
            stoiDigits]
        simp only [Option.map_some']
        exact congrArg (fun m => some (Int.ofNat m)) (by omega)

/-- C6 counterexample: after body_length(42), encode_header writes
GS followed by two spaces and 42 (space padding, the stream default),
not the zero-padded GS0042 the claim states. -/
theorem c6_counterexample :
    encode_header (body_length_set 42) = [71, 83, 32, 32, 52, 50] ∧
    encode_header (body_length_set 42) ≠ zeroPadded4Header 42 := by
  decide

/-- C6 amended: for every n at most 1029, after body_length(n),
encode_header writes a 6-byte header starting with G and S whose last
four bytes are the decimal representation of n right-justified with
space padding; std::stoi parses those four bytes back to n, and for
1 ≤ n ≤ 1029 decode_header accepts the written header and recovers the
body length n. -/
theorem c6_encode_header_amended (n : Nat) (h : n ≤ 1029) :
    (encode_header (body_length_set n)).length = 6 ∧
    (encode_header (body_length_set n)).take 2 = [71, 83] ∧
    stoiModel ((encode_header (body_length_set n)).drop 2) =
      some (Int.ofNat n) ∧
    (1 ≤ n → decode_header (encode_header (body_length_set n)) 0 =
      (true, n)) := by
  have hbn : body_length_set n = n := by
    rw [body_length_set_eq_min]
    unfold max_body_length
    omega
  have hmin : min n max_body_length = n := by
    unfold max_body_length
    omega
  rw [hbn]
  unfold encode_header
  rw [hmin]
  have hstoi : stoiModel (setw4Bytes n) = some (Int.ofNat n) :=
    stoiModel_setw4 n (by omega)
  have hlen : (setw4Bytes n).length = 4 := by
    unfold setw4Bytes
    split_ifs <;> rfl
  refine ⟨?_, rfl, hstoi, fun h1 => ?_⟩
  · simp only [List.length_append, hlen]
    rfl
  · unfold decode_header
    rw [if_neg (by simp)]
    have hdrop : List.drop 2 ([71, 83] ++ setw4Bytes n) = setw4Bytes n := rfl
    rw [hdrop, hstoi, decode_header_core]
    have ht : toSizeT (Int.ofNat n) = n := by
      unfold toSizeT
      have : (Int.ofNat n) = (n : Int) := rfl
      rw [this]
      omega
    rw [ht, if_neg (by omega), if_neg (by unfold max_body_length; omega)]

/-- Witness for the amended C6 at the concrete body length 42. -/
theorem c6_witness :
    (encode_header (body_length_set 42)).length = 6 ∧
    (encode_header (body_length_set 42)).take 2 = [71, 83] ∧
    stoiModel ((encode_header (body_length_set 42)).drop 2) =
      some (Int.ofNat 42) ∧
    (1 ≤ 42 → decode_header (encode_header (body_length_set 42)) 0 =
      (true, 42)) :=
  c6_encode_header_amended 42 (by decide)

/-! ### CRC-24Q linearity and error-detection lemmas -/

theorem xor_shiftLeft (a b k : Nat) :
    (a ^^^ b) <<< k = (a <<< k) ^^^ (b <<< k) := by
  apply Nat.eq_of_testBit_eq
  intro i
  simp only [Nat.testBit_shiftLeft, Nat.testBit_xor]
  cases decide (k ≤ i) <;> simp

theorem if_xor_poly (p q : Bool) (P : Nat) :
    (if (p ^^ q) = true then P else 0) =
      (if p = true then P else 0) ^^^ (if q = true then P else 0) := by
  cases p <;> cases q <;> simp

theorem xor_xor_swap (a b c d : Nat) :
    (a ^^^ b) ^^^ (c ^^^ d) = (a ^^^ c) ^^^ (b ^^^ d) := by
  rw [Nat.xor_assoc, Nat.xor_assoc]
  congr 1
  rw [← Nat.xor_assoc, ← Nat.xor_assoc]
  congr 1
  exact Nat.xor_comm _ _

theorem crcStep_linear (s t : Nat) (b c : Bool) :
    crcStep (s ^^^ t) (b ^^ c) = crcStep s b ^^^ crcStep t c := by
  unfold crcStep
  rw [Nat.testBit_xor, xor_shiftLeft, ← Nat.and_xor_distrib_right]
  congr 1
  rw [show ((s.testBit 23 ^^ t.testBit 23) ^^ (b ^^ c)) =
      ((s.testBit 23 ^^ b) ^^ (t.testBit 23 ^^ c)) from by
    cases s.testBit 23 <;> cases t.testBit 23 <;> cases b <;> cases c <;> rfl]
  rw [if_xor_poly]
  exact xor_xor_swap _ _ _ _

theorem crcStep_lt (s : Nat) (b : Bool) : crcStep s b < 2 ^ 24 := by
  unfold crcStep
  exact Nat.lt_of_le_of_lt Nat.and_le_right (by norm_num)

theorem foldl_crcStep_linear (l1 : List Bool) :
    ∀ (l2 : List Bool), l1.length = l2.length → ∀ (s t : Nat),
    List.foldl crcStep (s ^^^ t) (List.zipWith (fun x y : Bool => x ^^ y) l1 l2) =
      List.foldl crcStep s l1 ^^^ List.foldl crcStep t l2 := by
  induction l1 with
  | nil =>
    intro l2 h s t
    cases l2 with
    | nil => simp
    | cons b t2 => simp at h
  | cons a t1 ih =>
    intro l2 h s t
    cases l2 with
    | nil => simp at h
    | cons b t2 =>
      simp only [List.zipWith_cons_cons, List.foldl_cons]
      rw [crcStep_linear]
      exact ih t2 (by simpa using h) _ _

theorem crcBits_zipXor (l1 l2 : List Bool) (h : l1.length = l2.length) :
    crcBits (List.zipWith (fun x y : Bool => x ^^ y) l1 l2) =
      crcBits l1 ^^^ crcBits l2 := by
  unfold crcBits
  have := foldl_crcStep_linear l1 l2 h 0 0
  simpa using this

theorem crcStep_zero_false : crcStep 0 false = 0 := by decide

theorem foldl_crcStep_zero (k : Nat) :
    List.foldl crcStep 0 (List.replicate k false) = 0 := by
  induction k with
  | zero => rfl
  | succ k2 ih => simpa [List.replicate_succ, crcStep_zero_false] using ih

theorem crcStep_false_eq (s : Nat) :
    crcStep s false =
      (if s.testBit 23 = true then ((s <<< 1) ^^^ 0x1864CFB) &&& 0xFFFFFF
       else (s <<< 1) &&& 0xFFFFFF) := by
  unfold crcStep
  cases h : s.testBit 23 <;> simp [h]

theorem crcStep_false_ne_zero (s : Nat) (hlt : s < 2 ^ 24) (hne : s ≠ 0) :
    crcStep s false ≠ 0 := by
  intro h0
  rw [crcStep_false_eq,
    show ((0xFFFFFF : Nat)) = 2 ^ 24 - 1 from by norm_num] at h0
  cases h23 : s.testBit 23 with
  | true =>
    rw [if_pos h23] at h0
    have hbit := congrArg (fun x => Nat.testBit x 0) h0
    simp only [Nat.testBit_and, Nat.testBit_xor, Nat.testBit_shiftLeft,
      Nat.testBit_two_pow_sub_one, Nat.zero_testBit] at hbit
    rw [show Nat.testBit 0x1864CFB 0 = true from by decide] at hbit
    simp at hbit
  | false =>
    rw [if_neg (by rw [h23]; exact Bool.false_ne_true)] at h0
    apply hne
    apply Nat.eq_of_testBit_eq
    intro i
    rw [Nat.zero_testBit]
    rcases Nat.lt_trichotomy i 23 with hi | hi | hi
    · have hbit := congrArg (fun x => Nat.testBit x (i + 1)) h0
      simp only [Nat.testBit_and, Nat.testBit_shiftLeft,
        Nat.testBit_two_pow_sub_one, Nat.zero_testBit] at hbit
      rw [decide_eq_true (by omega : 1 ≤ i + 1),
        decide_eq_true (by omega : i + 1 < 24)] at hbit
      simpa using hbit
    · rw [hi]
      exact h23
    · exact Nat.testBit_lt_two_pow (Nat.lt_of_lt_of_le hlt
        (Nat.pow_le_pow_right (by norm_num) (by omega)))

theorem foldl_crcStep_false_ne_zero (k : Nat) :
    ∀ (s : Nat), s < 2 ^ 24 → s ≠ 0 →
    List.foldl crcStep s (List.replicate k false) ≠ 0 := by
  induction k with
  | zero =>
    intro s _ hne
    simpa using hne
  | succ k2 ih =>
    intro s hlt hne
    rw [List.replicate_succ, List.foldl_cons]
    exact ih _ (crcStep_lt s false) (crcStep_false_ne_zero s hlt hne)

theorem crcBits_errVec_ne_zero (A B : Nat) :
    crcBits (List.replicate A false ++ true :: List.replicate B false) ≠ 0 := by
  unfold crcBits
  rw [List.foldl_append, foldl_crcStep_zero, List.foldl_cons]
  rw [show crcStep 0 true = 0x864CFB from by decide]
  exact foldl_crcStep_false_ne_zero B _ (by norm_num) (by norm_num)

theorem bitsOfByte_xor (a x : Nat) :
    bitsOfByte (a ^^^ x) =
      List.zipWith (fun p q : Bool => p ^^ q) (bitsOfByte a) (bitsOfByte x) := by
  simp only [bitsOfByte, List.zipWith_cons_cons, List.zipWith_nil_right,
    Nat.testBit_xor]

theorem zipWith_xor_replicate_false (l : List Bool) :
    List.zipWith (fun p q : Bool => p ^^ q) l (List.replicate l.length false) =
      l := by
  induction l with
  | nil => rfl
  | cons a t ih => simp [List.replicate_succ, ih]

theorem bitsOfByte_one_shift (j : Nat) (hj : j < 8) :
    bitsOfByte (1 <<< (7 - j)) =
      List.replicate j false ++ true :: List.replicate (7 - j) false := by
  interval_cases j <;> decide

theorem bytesToBits_length (m : List Nat) :
    (bytesToBits m).length = 8 * m.length := by
  induction m with
  | nil => rfl
  | cons b t ih =>
    simp only [bytesToBits, List.length_append, ih, List.length_cons]
    simp [bitsOfByte]
    ring

theorem flipAt_length (m : List Nat) (i j : Nat) :
    (flipAt m i j).length = m.length := by
  induction m generalizing i with
  | nil => rfl
  | cons b t ih =>
    cases i with
    | zero => rfl
    | succ i2 => simp [flipAt, ih]

theorem bytesToBits_flipAt (m : List Nat) (i j : Nat) (hi : i < m.length)
    (hj : j < 8) :
    bytesToBits (flipAt m i j) =
      List.zipWith (fun p q : Bool => p ^^ q) (bytesToBits m)
        (List.replicate (8 * i + j) false ++ true ::
          List.replicate (8 * (m.length - i - 1) + (7 - j)) false) := by
  induction m generalizing i with
  | nil => simp at hi
  | cons b t ih =>
    cases i with
    | zero =>
      show bitsOfByte (b ^^^ (1 <<< (7 - j))) ++ bytesToBits t = _
      rw [bitsOfByte_xor, bitsOfByte_one_shift j hj]
      have harith : 8 * ((b :: t).length - 0 - 1) + (7 - j) =
          (7 - j) + 8 * t.length := by
        simp only [List.length_cons]
        omega
      rw [harith]
      rw [show (8 : Nat) * 0 + j = j from by omega]
      rw [List.replicate_add]
      rw [show (List.replicate j false ++ true ::
            (List.replicate (7 - j) false ++ List.replicate (8 * t.length) false)) =
          ((List.replicate j false ++ true :: List.replicate (7 - j) false) ++
            List.replicate (8 * t.length) false) from by simp]
      rw [show bytesToBits (b :: t) = bitsOfByte b ++ bytesToBits t from rfl]
      rw [List.zipWith_append _ _ _ _ _ (by simp [bitsOfByte]; omega)]
      rw [← bytesToBits_length t, zipWith_xor_replicate_false]
    | succ i2 =>
      have hi2 : i2 < t.length := by
        simp only [List.length_cons] at hi
        omega
      show bitsOfByte b ++ bytesToBits (flipAt t i2 j) = _
      rw [ih i2 hi2]
      have harith : 8 * (i2 + 1) + j = 8 + (8 * i2 + j) := by omega
      rw [harith]
      rw [show List.replicate (8 + (8 * i2 + j)) (false : Bool) =
          List.replicate 8 false ++ List.replicate (8 * i2 + j) false from
        by rw [List.replicate_add]]
      have harith2 : 8 * ((b :: t).length - (i2 + 1) - 1) + (7 - j) =
          8 * (t.length - i2 - 1) + (7 - j) := by
        simp only [List.length_cons]
        omega
      rw [harith2]
      rw [show bytesToBits (b :: t) = bitsOfByte b ++ bytesToBits t from rfl]
      rw [show (List.replicate 8 false ++ List.replicate (8 * i2 + j) false) ++
            true :: List.replicate (8 * (t.length - i2 - 1) + (7 - j)) false =
          List.replicate 8 false ++ (List.replicate (8 * i2 + j) false ++
            true :: List.replicate (8 * (t.length - i2 - 1) + (7 - j)) false)
          from by simp]
      rw [List.zipWith_append _ _ _ _ _ (by simp [bitsOfByte])]
      rw [show List.replicate 8 false =
          List.replicate (bitsOfByte b).length false from by simp [bitsOfByte]]
      rw [zipWith_xor_replicate_false]

theorem take_flipAt_lt (m : List Nat) (i j k : Nat) (h : i < k) :
    (flipAt m i j).take k = flipAt (m.take k) i j := by
  induction m generalizing i k with
  | nil => simp [flipAt]
  | cons b t ih =>
    cases i with
    | zero =>
      cases k with
      | zero => omega
      | succ k2 => rfl
    | succ i2 =>
      cases k with
      | zero => omega
      | succ k2 =>
        show b :: (flipAt t i2 j).take k2 = b :: flipAt (t.take k2) i2 j
        rw [ih i2 k2 (by omega)]

theorem take_flipAt_ge (m : List Nat) (i j k : Nat) (h : k ≤ i) :
    (flipAt m i j).take k = m.take k := by
  induction m generalizing i k with
  | nil => simp [flipAt]
  | cons b t ih =>
    cases k with
    | zero => rfl
    | succ k2 =>
      cases i with
      | zero => omega
      | succ i2 =>
        show b :: (flipAt t i2 j).take k2 = b :: t.take k2
        rw [ih i2 k2 (by omega)]

theorem drop_flipAt_lt (m : List Nat) (i j k : Nat) (h : i < k) :
    (flipAt m i j).drop k = m.drop k := by
  induction m generalizing i k with
  | nil => simp [flipAt]
  | cons b t ih =>
    cases k with
    | zero => omega
    | succ k2 =>
      cases i with
      | zero =>
        show t.drop k2 = t.drop k2
        rfl
      | succ i2 =>
        show (flipAt t i2 j).drop k2 = t.drop k2
        exact ih i2 k2 (by omega)

theorem drop_flipAt_ge (m : List Nat) (i j k : Nat) (h : k ≤ i) :
    (flipAt m i j).drop k = flipAt (m.drop k) (i - k) j := by
  induction m generalizing i k with
  | nil => simp [flipAt]
  | cons b t ih =>
    cases k with
    | zero => simp
    | succ k2 =>
      cases i with
      | zero => omega
      | succ i2 =>
        show (flipAt t i2 j).drop k2 = flipAt (t.drop k2) (i2 + 1 - (k2 + 1)) j
        rw [show i2 + 1 - (k2 + 1) = i2 - k2 from by omega]
        exact ih i2 k2 (by omega)

theorem xor_ne_self (x p : Nat) (hp : p ≠ 0) : x ^^^ p ≠ x := by
  intro h
  apply hp
  have h2 := congrArg (fun y => x ^^^ y) h
  simp only [← Nat.xor_assoc, Nat.xor_self, Nat.zero_xor] at h2
  exact h2

theorem byteVal3_flipAt_ne (l : List Nat) (hl : l.length = 3) (i j : Nat)
    (hi : i < 3) : byteVal3 (flipAt l i j) ≠ byteVal3 l := by
  have hp : (1 <<< (7 - j)) ≠ 0 := by
    rw [Nat.shiftLeft_eq, Nat.one_mul]
    positivity
  match l, hl with
  | [a, b, c], _ =>
    interval_cases i
    · show byteVal3 [a ^^^ (1 <<< (7 - j)), b, c] ≠ byteVal3 [a, b, c]
      have hne := xor_ne_self a _ hp
      simp only [byteVal3, List.getD_cons_zero, List.getD_cons_succ]
      omega
    · show byteVal3 [a, b ^^^ (1 <<< (7 - j)), c] ≠ byteVal3 [a, b, c]
      have hne := xor_ne_self b _ hp
      simp only [byteVal3, List.getD_cons_zero, List.getD_cons_succ]
      omega
    · show byteVal3 [a, b, c ^^^ (1 <<< (7 - j))] ≠ byteVal3 [a, b, c]
      have hne := xor_ne_self c _ hp
      simp only [byteVal3, List.getD_cons_zero, List.getD_cons_succ]
      omega

/-- C2: for every byte string of at least 3 bytes, check_CRC returns true
whenever the 24-bit value of the last three bytes equals the CRC-24Q of
the preceding bytes; and every message that passes the check fails it
after any single bit of any of its bytes is flipped. -/
theorem c2_crc_check_and_single_bit (m : List Nat) (hlen : 3 ≤ m.length) :
    (byteVal3 (m.drop (m.length - 3)) = crcBytes (m.take (m.length - 3)) →
      check_CRC m = true) ∧
    (check_CRC m = true → ∀ i j, i < m.length → j < 8 →
      check_CRC (flipAt m i j) = false) := by
  constructor
  · intro h
    unfold check_CRC
    rw [if_neg (by omega), h]
    exact beq_self_eq_true _
  · intro hpass i j hi hj
    have heq : crcBytes (m.take (m.length - 3)) =
        byteVal3 (m.drop (m.length - 3)) := by
      unfold check_CRC at hpass
      rw [if_neg (by omega)] at hpass
      exact beq_iff_eq.mp hpass
    have hfl : (flipAt m i j).length = m.length := flipAt_length m i j
    unfold check_CRC
    rw [hfl, if_neg (by omega)]
    rw [beq_eq_false_iff_ne]
    by_cases hcase : i < m.length - 3
    · -- the flipped bit lies in the CRC-protected part
      rw [take_flipAt_lt m i j _ hcase, drop_flipAt_lt m i j _ hcase]
      have hpre_len : (m.take (m.length - 3)).length = m.length - 3 := by
        rw [List.length_take]
        omega
      have hi' : i < (m.take (m.length - 3)).length := by omega
      unfold crcBytes
      rw [bytesToBits_flipAt (m.take (m.length - 3)) i j hi' hj]
      rw [crcBits_zipXor _ _ (by
        rw [bytesToBits_length]
        simp only [List.length_append, List.length_replicate,
          List.length_cons]
        omega)]
      rw [show crcBits (bytesToBits (m.take (m.length - 3))) =
          byteVal3 (m.drop (m.length - 3)) from heq]
      rw [Nat.xor_comm]
      rw [Nat.xor_comm] at *
      exact xor_ne_self _ _ (crcBits_errVec_ne_zero _ _)
    · -- the flipped bit lies in the three CRC bytes
      push_neg at hcase
      rw [take_flipAt_ge m i j _ hcase, drop_flipAt_ge m i j _ hcase]
      unfold crcBytes
      rw [show crcBits (bytesToBits (m.take (m.length - 3))) =
          byteVal3 (m.drop (m.length - 3)) from heq]
      exact (byteVal3_flipAt_ne (m.drop (m.length - 3))
        (by rw [List.length_drop]; omega) (i - (m.length - 3)) j
        (by omega)).symm

/-- Witness for C2: the framed empty message passes the CRC check, and
flipping its first bit makes the check fail. -/
theorem c2_witness :
    check_CRC (buildFrame []) = true ∧
    check_CRC (flipAt (buildFrame []) 0 0) = false := by
  have h := c2_crc_check_and_single_bit (buildFrame []) (by decide)
  exact ⟨h.1 (by decide), h.2 (h.1 (by decide)) 0 0 (by decide) (by decide)⟩
